import Mathlib

/-!
Verification development for the kuzik/markdown-pdf-action repository.

The Go sources under cmd/markdown-to-pdf, cmd/files-dashboard and
cmd/template-hydrator are shallowly embedded below.  Strings are modelled
as `List Char`; file-system effects (glob expansion, file reads, Chrome
rendering, zip creation) are modelled as explicit oracle functions carried
in an environment record, and the artifacts a job writes are returned as an
explicit list of write events.
-/

namespace MdAction

/-- Strings of the embedded programs: Go strings modelled as lists of characters. -/
abbrev Str := List Char

/-- Model of Go `strings.Join`. -/
def strJoin (sep : Str) : List Str → Str
  | [] => []
  | [p] => p
  | p :: ps => p ++ sep ++ strJoin sep ps

/-- Suffix of the elements satisfying `p` (helper for the path functions). -/
def takeEndWhile (p : Char → Bool) (l : Str) : Str :=
  (l.reverse.takeWhile p).reverse

/-- Drop the maximal suffix of elements satisfying `p` (helper for the path functions). -/
def dropEndWhile (p : Char → Bool) (l : Str) : Str :=
  (l.reverse.dropWhile p).reverse

/-- Split a path at every `/` (helper for the model of `filepath.Clean`). -/
def splitSlash : Str → List Str
  | [] => [[]]
  | c :: rest =>
    if c = '/' then [] :: splitSlash rest
    else
      match splitSlash rest with
      | [] => [[c]]
      | h :: t => (c :: h) :: t

/-- The `..` path component. -/
def dotdot : Str := ['.', '.']

/-- One step of `filepath.Clean`'s element processing: `..` pops the last
retained component (except that a non-rooted path keeps leading `..`s). -/
def cleanStep (rooted : Bool) (acc : List Str) (c : Str) : List Str :=
  if c = dotdot then
    if rooted then acc.dropLast
    else
      match acc.getLast? with
      | none => [c]
      | some l => if l = dotdot then acc ++ [c] else acc.dropLast
  else acc ++ [c]

/-- `filepath.Clean`'s processing of the component list: empty and `.`
components are dropped, `..` is resolved by `cleanStep`. -/
def cleanComps (rooted : Bool) (comps : List Str) : List Str :=
  (comps.filter fun c => !c.isEmpty && !(c == ['.'])).foldl (cleanStep rooted) []

/-- Whether a path begins with the separator (rooted). -/
def rootedOf : Str → Bool
  | '/' :: _ => true
  | _ => false

/-- Model of Go `path/filepath.Clean` (unix rules): shortest equivalent path. -/
def pathClean (p : Str) : Str :=
  if p = [] then ['.']
  else
    let rooted := rootedOf p
    let comps := cleanComps rooted (splitSlash p)
    let res := (if rooted then ['/'] else []) ++ strJoin ['/'] comps
    if res = [] then ['.'] else res

/-- The prefix that `joinPath o c` places before a plain final component
(proof-support definition for the artifact-name lemmas). -/
def joinStemOf (o : Str) : Str :=
  if o = [] then []
  else
    (if rootedOf o then ['/'] else []) ++
      (if cleanComps (rootedOf o) (splitSlash o) = [] then []
       else strJoin ['/'] (cleanComps (rootedOf o) (splitSlash o)) ++ ['/'])

/-- Model of Go `path/filepath.Base` (unix rules). -/
def pathBase (p : Str) : Str :=
  if p = [] then ['.']
  else
    let q := dropEndWhile (fun c => c = '/') p
    if q = [] then ['/']
    else takeEndWhile (fun c => !(c = '/')) q

/-- Model of Go `path/filepath.Dir` (unix rules): everything up to and
including the final separator, cleaned. -/
def pathDir (p : Str) : Str :=
  pathClean (dropEndWhile (fun c => !(c = '/')) p)

/-- Model of Go `path/filepath.Ext`: the suffix beginning at the final dot
in the final path element, or empty when there is none. -/
def pathExt (p : Str) : Str :=
  let seg := takeEndWhile (fun c => !(c = '/')) p
  let aft := takeEndWhile (fun c => !(c = '.')) seg
  if aft.length = seg.length then [] else '.' :: aft

/-- Model of Go `path/filepath.Join` on two elements: empty elements are
skipped and the result is cleaned. -/
def joinPath (a b : Str) : Str :=
  if a = [] then (if b = [] then [] else pathClean b)
  else pathClean (a ++ '/' :: b)

/-- Model of `filepath.Rel(base, targ)` for the shapes produced by the
directory walk (targets lexically under `base`); the indexer discards the
error return, and the walk only ever produces in-tree targets. -/
def relPath (base targ : Str) : Str :=
  if targ = base then ['.']
  else if (base ++ ['/']).isPrefixOf targ then targ.drop (base.length + 1)
  else targ

/-- Go string comparison `<` (lexicographic). -/
def strLt : Str → Str → Bool
  | [], [] => false
  | [], _ :: _ => true
  | _ :: _, [] => false
  | a :: as, b :: bs => if a < b then true else if a = b then strLt as bs else false

/-! ## cmd/markdown-to-pdf: asset embedder (`embedImagesAsBase64` and helpers)

The Go code scans HTML with the regular expression
`<img\s+[^>]*src=["']([^"']+)["'][^>]*>` (leftmost-first, greedy with
backtracking, as Go's regexp package behaves) and rewrites each matched tag.
The matcher is embedded below as an executable function on `List Char`.
The character-class quantifiers make all backtracking deterministic except
for the greedy `[^>]*` before `src=`, which is resolved by trying the
anchor positions from the rightmost viable one downwards; the greedy `\s+`
never changes the set of viable anchors (no whitespace character starts
`src=`), so it is taken maximal. -/

/-- Go regexp `\s`: `[\t\n\f\r ]`. -/
def isWS (c : Char) : Bool :=
  c = ' ' || c = '\t' || c = '\n' || c = '\x0c' || c = '\r'

/-- The character class `["']`. -/
def isQuoteCh (c : Char) : Bool := c = '"' || c = Char.ofNat 39

/-- The character class `[^"']`. -/
def notQuoteCh (c : Char) : Bool := !(isQuoteCh c)

/-- The character class `[^>]`. -/
def notGtCh (c : Char) : Bool := !(c = '>')

/-- Attempt `src=["']([^"']+)["'][^>]*>` at offset `p` of `s`, returning the
total number of characters of `s` consumed (from offset 0) on success.  The
quantified classes leave no backtracking choices here (a maximal `[^"']+`
run is necessarily followed by a quote or the end, and a maximal `[^>]*`
run by `>` or the end). -/
def tryAnchor (s : Str) (p : Nat) : Option Nat :=
  match s.drop (p + 4) with
  | [] => none
  | q1 :: r1 =>
    if isQuoteCh q1 then
      let v := r1.takeWhile notQuoteCh
      if v = [] then none
      else
        match r1.drop v.length with
        | [] => none
        | q2 :: r2 =>
          if isQuoteCh q2 then
            let t := r2.takeWhile notGtCh
            match r2.drop t.length with
            | g :: _ => if g = '>' then some (p + 4 + 1 + v.length + 1 + t.length + 1) else none
            | [] => none
          else none
    else none

/-- `p` is a viable anchor for `[^>]*src=` in `s`: the skipped prefix has no
`>` and `src=` starts at `p`. -/
def anchorOK (s : Str) (p : Nat) : Bool :=
  ((s.drop p).take 4 == "src=".toList) && (s.take p).all notGtCh

/-- Try the anchor positions in the given order, returning the first success. -/
def firstAnchor (s : Str) : List Nat → Option Nat
  | [] => none
  | p :: ps =>
    if anchorOK s p then
      match tryAnchor s p with
      | some n => some n
      | none => firstAnchor s ps
    else firstAnchor s ps

/-- Match `[^>]*src=["']([^"']+)["'][^>]*>` at the head of `s`: greedy
`[^>]*`, so anchors are tried from the rightmost downwards. -/
def matchAfterWS (s : Str) : Option Nat :=
  firstAnchor s ((List.range (s.length + 1)).reverse)

/-- Match the whole img-tag pattern at the head of `s`, returning the length
of the match. -/
def matchImgHead (s : Str) : Option Nat :=
  if s.take 4 = "<img".toList then
    let s1 := s.drop 4
    let wsLen := (s1.takeWhile isWS).length
    if wsLen = 0 then none
    else
      match matchAfterWS (s1.drop wsLen) with
      | some k => some (4 + wsLen + k)
      | none => none
  else none

/-- Fuel-driven model of `Regexp.ReplaceAllStringFunc` for the img-tag
pattern: leftmost match, replace, continue after it.  `fuel ≥ s.length`
at every call from `replaceImgs`, so the fuel-exhausted branch is
unreachable. -/
def replaceImgsAux (f : Str → Str) : Nat → Str → Str
  | _, [] => []
  | 0, s => s
  | fuel + 1, c :: rest =>
    match matchImgHead (c :: rest) with
    | some n => f ((c :: rest).take n) ++ replaceImgsAux f fuel ((c :: rest).drop n)
    | none => c :: replaceImgsAux f fuel rest

/-- `imgRegex.ReplaceAllStringFunc` applied to `s`. -/
def replaceImgs (f : Str → Str) (s : Str) : Str := replaceImgsAux f s.length s

/-- Attempt the sub-pattern `src=["']([^"']+)["']` at the head of `s`,
returning the captured value. -/
def extractAt (s : Str) : Option Str :=
  if s.take 4 = "src=".toList then
    match s.drop 4 with
    | [] => none
    | q1 :: r1 =>
      if isQuoteCh q1 then
        let v := r1.takeWhile notQuoteCh
        if v = [] then none
        else
          match r1.drop v.length with
          | [] => none
          | q2 :: _ => if isQuoteCh q2 then some v else none
      else none
  else none

/-- `extractSrcAttribute`: first (leftmost) `src=["']([^"']+)["']` capture in
the tag, or empty when there is none. -/
def extractSrcAttribute : Str → Str
  | [] => []
  | c :: rest =>
    match extractAt (c :: rest) with
    | some v => v
    | none => extractSrcAttribute rest

/-- Length consumed by a `src=["']([^"']+)["']` match at the head of `s`. -/
def srcMatchLen (s : Str) : Option Nat :=
  match extractAt s with
  | some v => some (4 + 1 + v.length + 1)
  | none => none

/-- Fuel-driven model of `ReplaceAllString` for the src-attribute pattern
with replacement `src="<new>"` (`replaceImageSrc`). -/
def replaceImageSrcAux (new : Str) : Nat → Str → Str
  | _, [] => []
  | 0, s => s
  | fuel + 1, c :: rest =>
    match srcMatchLen (c :: rest) with
    | some n =>
      ("src=".toList ++ '"' :: new ++ ['"']) ++ replaceImageSrcAux new fuel ((c :: rest).drop n)
    | none => c :: replaceImageSrcAux new fuel rest

/-- `replaceImageSrc`: rewrite every src attribute of the tag to `newSrc`. -/
def replaceImageSrc (imgTag newSrc : Str) : Str :=
  replaceImageSrcAux newSrc imgTag.length imgTag

/-- `isAbsoluteOrDataURL`: data URLs and absolute http(s) URLs are skipped. -/
def isAbsoluteOrDataURL (url : Str) : Bool :=
  "data:".toList.isPrefixOf url || "http://".toList.isPrefixOf url ||
    "https://".toList.isPrefixOf url

/-- The per-tag replacement function inside `embedImagesAsBase64`.
`readImage` abstracts `imageToDataURL(srcPath, baseDir)` — the file read,
MIME lookup and base64 encoding, which are file-system effects; `none`
models a read failure (warning logged, tag left untouched). -/
def embedReplacement (readImage : Str → Option Str) (imgTag : Str) : Str :=
  let srcPath := extractSrcAttribute imgTag
  if srcPath = [] then imgTag
  else if isAbsoluteOrDataURL srcPath then imgTag
  else
    match readImage srcPath with
    | none => imgTag
    | some dataURL => replaceImageSrc imgTag dataURL

/-- `embedImagesAsBase64(htmlContent, baseDir)`:
replace every matched img tag via `embedReplacement`.  (The Go function's
error return is always nil.) -/
def embedImagesAsBase64 (readImage : Str → Str → Option Str) (htmlContent baseDir : Str) : Str :=
  replaceImgs (embedReplacement (readImage baseDir)) htmlContent

/-- Every img-tag match of `s` has a src that the embedder skips: the
extracted attribute is empty, or an inline-data / absolute URL.  Defined by
the same scan as `replaceImgs`. -/
def allImgSrcsSkippableAux : Nat → Str → Bool
  | _, [] => true
  | 0, _ => true
  | fuel + 1, c :: rest =>
    match matchImgHead (c :: rest) with
    | some n =>
      (let src := extractSrcAttribute ((c :: rest).take n)
       src.isEmpty || isAbsoluteOrDataURL src) &&
        allImgSrcsSkippableAux fuel ((c :: rest).drop n)
    | none => allImgSrcsSkippableAux fuel rest

/-- Every image src in `s` is already an inline-data or remote reference. -/
def allImgSrcsSkippable (s : Str) : Bool := allImgSrcsSkippableAux s.length s

-- sanity checks on the path model
example : pathClean "a//b/./c".toList = "a/b/c".toList := by decide
example : pathClean "a/../b".toList = "b".toList := by decide
example : pathClean "/..".toList = "/".toList := by decide
example : pathClean "".toList = ".".toList := by decide
example : pathBase "a/docs/README.md".toList = "README.md".toList := by decide
example : pathDir "a/docs/README.md".toList = "a/docs".toList := by decide
example : pathDir "README.md".toList = ".".toList := by decide
example : pathExt "demo_src.zip".toList = ".zip".toList := by decide
example : pathExt "demo".toList = "".toList := by decide
example : joinPath "out".toList "docs.pdf".toList = "out/docs.pdf".toList := by decide
example : relPath "output".toList "output/docs/demo.pdf".toList = "docs/demo.pdf".toList := by decide
example : strLt "abc".toList "abd".toList = true := by decide

-- sanity checks on the img-tag matcher and embedder
example : matchImgHead "<img src='a.png'> tail".toList = some 17 := by decide
example : matchImgHead "<imgsrc='a.png'>".toList = none := by decide
example : extractSrcAttribute "<img alt='x' src='a.png'>".toList = "a.png".toList := by decide
example :
    embedImagesAsBase64 (fun _ _ => some "data:image/png;base64,QUJD".toList)
      "<p><img src='a.png'></p>".toList "dir".toList =
    ('<' :: 'p' :: '>' :: "<img src=".toList ++ '"' ::
      "data:image/png;base64,QUJD".toList ++ '"' :: "></p>".toList) := by decide
example :
    embedImagesAsBase64 (fun _ _ => none)
      "<img src='http://x/y.png'>".toList "dir".toList =
    "<img src='http://x/y.png'>".toList := by decide
example : allImgSrcsSkippable "<p><img src='a.png'></p>".toList = false := by decide
example : allImgSrcsSkippable "<img src='data:image/png;base64,QUJD'>ok".toList = true := by
  decide

/-! ## cmd/markdown-to-pdf: jobs, resolver, combiners, publisher

File-system and collaborator effects are abstracted into an environment
record `Env`.  `glob` is the result of `doublestar.Glob` (`none` = bad
pattern), `readFile` is `os.ReadFile` (`none` = read error), `mdToHTML` is
the goldmark conversion (external GFM collaborator), `wrapPage` executes the
fixed `htmlTemplate` on content and title (external template engine),
`chromeOK` is success of the headless-Chrome render of the final HTML,
`srcDirExists` is `os.Stat` on a `src` subdirectory, `zipCreateOK` is
success of `zipFolder`, and `tmpName` is the runtime-chosen temporary file
name of `renderCombinedMarkdown` (its write/read roundtrip is modelled as
exact).  Directory creation (`os.MkdirAll`) creates no artifact and is
modelled as succeeding. -/

/-- The external effects of one `markdown-to-pdf` invocation. -/
structure Env where
  glob : Str → Option (List Str)
  readFile : Str → Option Str
  mdToHTML : Str → Option Str
  readImage : Str → Str → Option Str
  wrapPage : Str → Str → Str
  chromeOK : Str → Bool
  srcDirExists : Str → Bool
  zipCreateOK : Str → Bool
  tmpName : Str

/-- The distinct error values the pipeline produces (Go wraps distinct
format strings; distinct constructors model distinct messages). -/
inductive JobError where
  | globBad (pattern : Str)
  | noMatch (pattern : Str)
  | noReadme (source : Str)
  | readFile (path : Str)
  | readMarkdown (path : Str)
  | convertFailed
  | chromeFailed (outPath : Str)
  | zipFailed (path : Str)
  | unknownType (t : Str)
  deriving DecidableEq

/-- A file written by a job: the rendered PDF or the companion source zip. -/
inductive Artifact where
  | pdf (path : Str)
  | zip (path : Str)
  deriving DecidableEq

/-- One entry of the YAML job configuration. -/
structure Job where
  source : Str
  output : Str
  type : Str
  deriving DecidableEq

/-- The `renderConfig` record of the Go code. -/
structure renderConfig where
  mdPath : Str
  outPath : Str
  baseDir : Str

/-- The marker filename of the independent and combine strategies. -/
def markerName : Str := "README.md".toList

/-- `findMatches`: expand the glob pattern; zero matches is an error. -/
def findMatches (env : Env) (pattern : Str) : Except JobError (List Str) :=
  match env.glob pattern with
  | none => .error (.globBad pattern)
  | some ms => if ms = [] then .error (.noMatch pattern) else .ok ms

/-- `filterREADMEs`: keep only the files named `README.md`. -/
def filterREADMEs (files : List Str) : List Str :=
  files.filter fun f => pathBase f == markerName

/-- The reading loop of `combineMarkdownFiles`: contents of all files, or
the error of the first unreadable one. -/
def readAllFiles (env : Env) : List Str → Except JobError (List Str)
  | [] => .ok []
  | f :: fs =>
    match env.readFile f with
    | none => .error (.readFile f)
    | some content =>
      match readAllFiles env fs with
      | .error e => .error e
      | .ok parts => .ok (content :: parts)

/-- `combineMarkdownFiles`: read every matched file and join the contents
with the separator; any unreadable file is an error. -/
def combineMarkdownFiles (env : Env) (files : List Str) (separator : Str) :
    Except JobError Str :=
  match readAllFiles env files with
  | .error e => .error e
  | .ok parts => .ok (strJoin separator parts)

/-- The `fmt.Sprintf("# %s\n", folderName)` heading of the combine strategy. -/
def headerFor (readme : Str) : Str :=
  "# ".toList ++ pathBase (pathDir readme) ++ ['\n']

/-- The loop body of `combineREADMEsWithHeaders`: the folder heading is
appended before the read is attempted, and a failed read only skips the
content part. -/
def combineStep (env : Env) (parts : List Str) (readme : Str) : List Str :=
  let parts := parts ++ [headerFor readme]
  match env.readFile readme with
  | none => parts
  | some content => parts ++ [content]

/-- The parts list built by `combineREADMEsWithHeaders`. -/
def combineParts (env : Env) (readmes : List Str) : List Str :=
  readmes.foldl (combineStep env) []

/-- The separator between entries of the combine strategy. -/
def combineSeparator : Str := "\n\n---\n\n".toList

/-- `combineREADMEsWithHeaders` (its error return is always nil). -/
def combineREADMEsWithHeaders (env : Env) (readmes : List Str) : Str :=
  strJoin combineSeparator (combineParts env readmes)

/-- The tail of `renderMarkdownToPDF` after the source read: goldmark
conversion, image embedding, template wrapping, Chrome render; the PDF is
written only on success. -/
def renderContentToPDF (env : Env) (src outPath baseDir0 mdPath : Str) :
    Except JobError Unit × List Artifact :=
  match env.mdToHTML src with
  | none => (.error .convertFailed, [])
  | some htmlBody =>
    let baseDir := if baseDir0 = [] then pathDir mdPath else baseDir0
    let htmlWithImages := embedImagesAsBase64 env.readImage htmlBody baseDir
    let htmlContent := env.wrapPage htmlWithImages (pathBase mdPath)
    if env.chromeOK htmlContent then (.ok (), [.pdf outPath])
    else (.error (.chromeFailed outPath), [])

/-- `renderMarkdownToPDF`. -/
def renderMarkdownToPDF (env : Env) (cfg : renderConfig) :
    Except JobError Unit × List Artifact :=
  match env.readFile cfg.mdPath with
  | none => (.error (.readMarkdown cfg.mdPath), [])
  | some src => renderContentToPDF env src cfg.outPath cfg.baseDir cfg.mdPath

/-- `renderCombinedMarkdown`: the combined content is written to a temporary
file and rendered from there; the write/read roundtrip is modelled as exact,
and `env.tmpName` is the temporary file's runtime-chosen name (used for the
base-directory fallback and the page title). -/
def renderCombinedMarkdown (env : Env) (content outputPath baseDir : Str) :
    Except JobError Unit × List Artifact :=
  renderContentToPDF env content outputPath baseDir env.tmpName

/-- `zipSourceIfExists`: archive the `src` subdirectory, when present, next
to the primary artifact. -/
def zipSourceIfExists (env : Env) (folder outputDir baseName : Str) :
    Except JobError Unit × List Artifact :=
  if env.srcDirExists (joinPath folder "src".toList) then
    let zipName := joinPath outputDir (baseName ++ "_src.zip".toList)
    if env.zipCreateOK zipName then (.ok (), [.zip zipName])
    else (.error (.zipFailed zipName), [])
  else (.ok (), [])

/-- The loop body of `renderSubfolders`: non-marker matches are skipped, a
failed render is logged and skipped, a successful render is followed by the
companion-zip attempt (whose failure is only logged). -/
def subfolderStep (env : Env) (output : Str) (acc : List Artifact) (m : Str) :
    List Artifact :=
  if pathBase m == markerName then
    let folder := pathDir m
    let folderName := pathBase folder
    let outPDF := joinPath output (folderName ++ ".pdf".toList)
    match renderMarkdownToPDF env ⟨m, outPDF, folder⟩ with
    | (.error _, w) => acc ++ w
    | (.ok _, w) =>
      let zw := (zipSourceIfExists env folder output folderName).2
      acc ++ w ++ zw
  else acc

/-- `renderSubfolders` (job type `subfolders`, the independent strategy). -/
def renderSubfolders (env : Env) (j : Job) : Except JobError Unit × List Artifact :=
  match findMatches env j.source with
  | .error e => (.error e, [])
  | .ok ms => (.ok (), ms.foldl (subfolderStep env j.output) [])

/-- `renderSingle` (job type `single`, the merge strategy). -/
def renderSingle (env : Env) (j : Job) : Except JobError Unit × List Artifact :=
  match findMatches env j.source with
  | .error e => (.error e, [])
  | .ok ms =>
    match combineMarkdownFiles env ms "\n\n".toList with
    | .error e => (.error e, [])
    | .ok combined =>
      let baseDir :=
        match ms with
        | [] => []
        | m :: _ => pathDir m
      renderCombinedMarkdown env combined j.output baseDir

/-- `renderCombine` (job type `combine`, the merge-with-headers strategy). -/
def renderCombine (env : Env) (j : Job) : Except JobError Unit × List Artifact :=
  match findMatches env j.source with
  | .error e => (.error e, [])
  | .ok ms =>
    let readmes := filterREADMEs ms
    if readmes = [] then (.error (.noReadme j.source), [])
    else
      let combined := combineREADMEsWithHeaders env readmes
      let baseDir :=
        match readmes with
        | [] => []
        | r :: _ => pathDir r
      renderCombinedMarkdown env combined j.output baseDir

/-- `executeJob`: dispatch on the job type. -/
def executeJob (env : Env) (j : Job) : Except JobError Unit × List Artifact :=
  if j.type = "subfolders".toList then renderSubfolders env j
  else if j.type = "single".toList then renderSingle env j
  else if j.type = "combine".toList then renderCombine env j
  else (.error (.unknownType j.type), [])

/-- `executeJobs`: every job runs; a failure is logged (collected here as
the job's result) and does not stop the loop. -/
def executeJobs (env : Env) (jobs : List Job) :
    List (Except JobError Unit) × List Artifact :=
  jobs.foldl
    (fun acc j =>
      let r := executeJob env j
      (acc.1 ++ [r.1], acc.2 ++ r.2))
    ([], [])

/-! ## cmd/files-dashboard: the indexer

The directory walk is modelled by the list `tree` of walked file paths (in
`filepath.Walk` order); directories are already excluded.  `os.Stat` on a
path inside the scanned tree is modelled as membership in `tree`
(consistent-filesystem assumption: nothing changes between the two passes).
The Go `map[string][]fileEntry` keyed by folder is modelled as an
association list in first-insertion order; the randomness of Go's map
iteration is captured in the theorems by quantifying over permutations of
the bucket list. -/

/-- The `fileEntry` record of the dashboard. -/
structure fileEntry where
  Name : Str
  Path : Str
  Zip : Str
  deriving DecidableEq

/-- The skip/companion naming test of both passes:
`Ext(name) == ".zip" && len(name) > 8 && name[len-8:] == "_src.zip"`. -/
def isSrcZipName (name : Str) : Bool :=
  (pathExt name == ".zip".toList) && decide (8 < name.length) &&
    (name.drop (name.length - 8) == "_src.zip".toList)

/-- Go map assignment `m[k] = v` on an association list. -/
def mapAssign (m : List (Str × Str)) (k v : Str) : List (Str × Str) :=
  if m.any (fun kv => kv.1 == k) then m.map fun kv => if kv.1 == k then (k, v) else kv
  else m ++ [(k, v)]

/-- Go map lookup `m[k]` on an association list. -/
def lookupAssoc (m : List (Str × Str)) (k : Str) : Option Str :=
  match m.find? (fun kv => kv.1 == k) with
  | some kv => some kv.2
  | none => none

/-- Pass 1 body: for every archive matching the companion convention whose
expected primary artifact exists on disk, record the pairing. -/
def pass1Step (tree : List Str) (source : Str) (acc : List (Str × Str)) (path : Str) :
    List (Str × Str) :=
  let name := pathBase path
  if pathExt name == ".zip".toList then
    if decide (8 < name.length) && (name.drop (name.length - 8) == "_src.zip".toList) then
      let pdfName := name.take (name.length - 8) ++ ".pdf".toList
      let pdfPath := joinPath (pathDir path) pdfName
      if tree.contains pdfPath then mapAssign acc pdfPath (relPath source path) else acc
    else acc
  else acc

/-- Pass 1: the `pdfToZip` map. -/
def pass1 (tree : List Str) (source : Str) : List (Str × Str) :=
  tree.foldl (pass1Step tree source) []

/-- `sections[folder] = append(sections[folder], e)` on the association
list of buckets. -/
def bucketAppend (secs : List (Str × List fileEntry)) (folder : Str) (e : fileEntry) :
    List (Str × List fileEntry) :=
  if secs.any (fun b => b.1 == folder) then
    secs.map fun b => if b.1 == folder then (b.1, b.2 ++ [e]) else b
  else secs ++ [(folder, [e])]

/-- Pass 2 body: skip every archive matching the companion convention, list
everything else grouped by containing folder, attaching the pass-1 pairing
to `.pdf` entries. -/
def pass2Step (source : Str) (pdfToZip : List (Str × Str))
    (secs : List (Str × List fileEntry)) (path : Str) : List (Str × List fileEntry) :=
  let name := pathBase path
  if isSrcZipName name then secs
  else
    let folder := pathDir path
    let rel := relPath source path
    let zipRel :=
      if pathExt name == ".pdf".toList then
        match lookupAssoc pdfToZip path with
        | some z => z
        | none => []
      else []
    bucketAppend secs folder ⟨name, rel, zipRel⟩

/-- Both walks composed: the folder-keyed buckets of catalog entries. -/
def buildSections (tree : List Str) (source : Str) : List (Str × List fileEntry) :=
  tree.foldl (pass2Step source (pass1 tree source)) []

/-- Ordering of catalog files: `files[i].Name < files[j].Name` or equal. -/
def fileLe (a b : fileEntry) : Prop := strLt a.Name b.Name = true ∨ a.Name = b.Name

/-- Ordering of sections: `ordered[i].Folder < ordered[j].Folder` or equal. -/
def secLe (a b : Str × List fileEntry) : Prop := strLt a.1 b.1 = true ∨ a.1 = b.1

/-- Strict ordering of sections by folder (proof-support definition). -/
def secLt (a b : Str × List fileEntry) : Prop := strLt a.1 b.1 = true

instance : DecidableRel fileLe := fun a b => by unfold fileLe; infer_instance

instance : DecidableRel secLe := fun a b => by unfold secLe; infer_instance

/-- Per-bucket `sort.Slice(files, by Name)`. -/
def sortFilesSecs (secs : List (Str × List fileEntry)) : List (Str × List fileEntry) :=
  secs.map fun b => (b.1, List.insertionSort fileLe b.2)

/-- The `ordered` slice: every bucket with its files sorted by name, then
the sections sorted by folder (`sort.Slice` modelled as a sort w.r.t. the
comparator; the bucket list handed in stands for one arbitrary map
iteration order). -/
def orderedSections (secs : List (Str × List fileEntry)) : List (Str × List fileEntry) :=
  List.insertionSort secLe (sortFilesSecs secs)

-- sanity checks on the indexer
example :
    buildSections ["output/docs/demo.pdf".toList, "output/docs/demo_src.zip".toList]
      "output".toList =
    [("output/docs".toList,
      [⟨"demo.pdf".toList, "docs/demo.pdf".toList, "docs/demo_src.zip".toList⟩])] := by
  decide
example :
    buildSections ["output/docs/demo_src.zip".toList] "output".toList = [] := by decide
example :
    buildSections ["output/a/x.zip".toList] "output".toList =
    [("output/a".toList, [⟨"x.zip".toList, "a/x.zip".toList, []⟩])] := by decide

/-! ## cmd/template-hydrator: the wrap decision

The hydrator's collaborators are abstracted in `HydEnv`: `toHTML` is the
markdown converter (`internal/markdown`), `embedImages` is
`images.EmbedImagesAsBase64` (the `internal/images` package, abstracted at
its interface; `none` = error), and `wrapTemplate content title` renders
the embedded `template.html` shell on the content and title
(`internal/templates`). -/

/-- The external collaborators of one `template-hydrator` document render. -/
structure HydEnv where
  toHTML : Str → Option Str
  embedImages : Str → Str → Option Str
  wrapTemplate : Str → Str → Str

/-- Character-wise lowercase, modelling `strings.ToLower`. -/
def toLowerStr (s : Str) : Str := s.map Char.toLower

/-- `strings.Contains`: `sub` occurs somewhere in `s`. -/
def containsStr : Str → Str → Bool
  | [], sub => sub.isEmpty
  | c :: rest, sub => sub.isPrefixOf (c :: rest) || containsStr rest sub

/-- `isCompleteHTMLDocument`: the content already carries a document-level
marker (doctype, html root, head section or style block), case-insensitively. -/
def isCompleteHTMLDocument (content : Str) : Bool :=
  let lower := toLowerStr content
  containsStr lower "<!doctype".toList || containsStr lower "<html".toList ||
    containsStr lower "<head".toList || containsStr lower "<style".toList

/-- `renderDocument` up to the full HTML document handed to the PDF
collaborator: template execution has produced `tmplOutput`; markdown
templates are converted to HTML; images are embedded; a non-markdown,
already-complete document is used directly, anything else is wrapped in the
shared shell with the `Title` data field (when present, else the entry
name) as title.  `none` models the error returns. -/
def renderDocumentHTML (env : HydEnv) (isMarkdown : Bool) (tmplOutput name : Str)
    (dataTitle : Option Str) (imageBasePath : Str) : Option Str :=
  match (if isMarkdown then env.toHTML tmplOutput else some tmplOutput) with
  | none => none
  | some converted =>
    match env.embedImages converted imageBasePath with
    | none => none
    | some content =>
      if !isMarkdown && isCompleteHTMLDocument content then some content
      else
        let title := dataTitle.getD name
        some (env.wrapTemplate content title)

-- sanity checks on the hydrator
example : isCompleteHTMLDocument "<p>x</p><style>.a</style>".toList = true := by decide
example : isCompleteHTMLDocument "<p>x</p>".toList = false := by decide
example : isCompleteHTMLDocument "<HTML>".toList = true := by decide

/-! ## Concrete fixtures used by counterexamples and witnesses -/

/-- Environment with two matched markdown files of which only `a.md` is
readable; rendering always succeeds. -/
def envTwoFiles : Env where
  glob := fun _ => some ["a.md".toList, "b.md".toList]
  readFile := fun p => if p = "a.md".toList then some "A".toList else none
  mdToHTML := fun s => some s
  readImage := fun _ _ => none
  wrapPage := fun c _ => c
  chromeOK := fun _ => true
  srcDirExists := fun _ => false
  zipCreateOK := fun _ => false
  tmpName := "tmp/combined-1.md".toList

/-- Environment whose glob finds `README.md` markers in two distinct
folders that share the base name `docs`; everything is readable and
rendering always succeeds. -/
def envTwoDocs : Env where
  glob := fun _ => some ["a/docs/README.md".toList, "b/docs/README.md".toList]
  readFile := fun _ => some "hello".toList
  mdToHTML := fun _ => some []
  readImage := fun _ _ => none
  wrapPage := fun c _ => c
  chromeOK := fun _ => true
  srcDirExists := fun _ => false
  zipCreateOK := fun _ => false
  tmpName := "tmp/combined-2.md".toList

/-- Environment whose glob matches nothing. -/
def envNoMatch : Env where
  glob := fun _ => some []
  readFile := fun _ => none
  mdToHTML := fun _ => none
  readImage := fun _ _ => none
  wrapPage := fun c _ => c
  chromeOK := fun _ => false
  srcDirExists := fun _ => false
  zipCreateOK := fun _ => false
  tmpName := "tmp/combined-3.md".toList

/-- Environment whose glob matches one non-marker file. -/
def envNoMarker : Env where
  glob := fun _ => some ["x/notes.md".toList]
  readFile := fun _ => some "note".toList
  mdToHTML := fun s => some s
  readImage := fun _ _ => none
  wrapPage := fun c _ => c
  chromeOK := fun _ => true
  srcDirExists := fun _ => false
  zipCreateOK := fun _ => false
  tmpName := "tmp/combined-4.md".toList

/-- A subfolders job writing into `out`. -/
def jobSubfolders : Job := ⟨"**/README.md".toList, "out".toList, "subfolders".toList⟩

/-- Environment whose glob finds markers in two folders with distinct base
names. -/
def envAlphaBeta : Env where
  glob := fun _ => some ["p/alpha/README.md".toList, "p/beta/README.md".toList]
  readFile := fun _ => some "hello".toList
  mdToHTML := fun _ => some []
  readImage := fun _ _ => none
  wrapPage := fun c _ => c
  chromeOK := fun _ => true
  srcDirExists := fun _ => false
  zipCreateOK := fun _ => false
  tmpName := "tmp/combined-5.md".toList

/-- A single (merge) job. -/
def jobSingle : Job := ⟨"docs/*.md".toList, "out/all.pdf".toList, "single".toList⟩

/-- A combine (merge-with-headers) job. -/
def jobCombine : Job := ⟨"**/README.md".toList, "out/all.pdf".toList, "combine".toList⟩

/-- Scanned tree holding a companion archive together with its primary
artifact. -/
def treePdfAndZip : List Str :=
  ["output/docs/demo.pdf".toList, "output/docs/demo_src.zip".toList]

/-- Scanned tree holding only a companion-convention archive, with no
matching primary artifact. -/
def treeZipOnly : List Str := ["output/docs/demo_src.zip".toList]

/-- Scanned tree with two folders, for the determinism witness. -/
def treeTwoFolders : List Str := ["output/a/x.pdf".toList, "output/b/y.pdf".toList]

/-- Hydrator collaborators where conversion and embedding are the
identity and the wrapper marks its output. -/
def hydEnvId : HydEnv where
  toHTML := fun s => some s
  embedImages := fun c _ => some c
  wrapTemplate := fun content title => "WRAP:".toList ++ title ++ ":".toList ++ content

/-- A document fragment containing a style block and no other
document-level marker. -/
def styleOnlyDoc : Str := "<style>.a</style><p>Hello</p>".toList

/-! ## Helper lemmas -/

/-- One combine step appends the heading and, when readable, the content. -/
theorem combineStep_eq (env : Env) (parts : List Str) (r : Str) :
    combineStep env parts r = parts ++ headerFor r :: (env.readFile r).toList := by
  cases h : env.readFile r <;> simp [combineStep, h, Option.toList]

/-- The combine parts list is one heading per marker file, followed by its
content exactly when the read succeeds. -/
theorem combineParts_foldl (env : Env) :
    ∀ (l : List Str) (acc : List Str),
      l.foldl (combineStep env) acc =
        acc ++ l.flatMap fun r => headerFor r :: (env.readFile r).toList := by
  intro l
  induction l with
  | nil => intro acc; simp
  | cons r rs ih =>
    intro acc
    rw [List.foldl_cons, combineStep_eq, ih]
    simp [List.append_assoc]

/-- `combineParts` as a flat map. -/
theorem combineParts_eq (env : Env) (readmes : List Str) :
    combineParts env readmes =
      readmes.flatMap fun r => headerFor r :: (env.readFile r).toList := by
  simpa [combineParts] using combineParts_foldl env readmes []

/-- When some listed file is unreadable, the reading loop fails with a read
error for an unreadable file. -/
theorem readAllFiles_error_of_fail (env : Env) :
    ∀ (files : List Str) (f : Str), f ∈ files → env.readFile f = none →
      ∃ g, readAllFiles env files = .error (.readFile g) ∧ env.readFile g = none := by
  intro files
  induction files with
  | nil => intro f hf; cases hf
  | cons x xs ih =>
    intro f hf hnone
    cases hx : env.readFile x with
    | none => exact ⟨x, by simp [readAllFiles, hx], hx⟩
    | some c =>
      have hfx : f ∈ xs := by
        rcases List.mem_cons.mp hf with rfl | h
        · rw [hx] at hnone; cases hnone
        · exact h
      obtain ⟨g, hg, hgn⟩ := ih f hfx hnone
      exact ⟨g, by simp [readAllFiles, hx, hg], hgn⟩

/-- `executeJobs` is exactly the per-job results and the concatenation of
the per-job writes: jobs do not influence one another. -/
theorem executeJobs_foldl (env : Env) :
    ∀ (l : List Job) (acc : List (Except JobError Unit) × List Artifact),
      l.foldl
        (fun acc j =>
          let r := executeJob env j
          (acc.1 ++ [r.1], acc.2 ++ r.2))
        acc =
      (acc.1 ++ l.map fun j => (executeJob env j).1,
       acc.2 ++ (l.map fun j => (executeJob env j).2).flatten) := by
  intro l
  induction l with
  | nil => intro acc; simp
  | cons j js ih => intro acc; simp [List.foldl_cons, ih, List.append_assoc]

/-- Characterization of `executeJobs`. -/
theorem executeJobs_eq (env : Env) (jobs : List Job) :
    executeJobs env jobs =
      (jobs.map fun j => (executeJob env j).1,
       (jobs.map fun j => (executeJob env j).2).flatten) := by
  simpa [executeJobs] using executeJobs_foldl env jobs ([], [])

/-- A render writes nothing or exactly its configured output PDF. -/
theorem renderContentToPDF_writes (env : Env) (src outPath baseDir0 mdPath : Str) :
    (renderContentToPDF env src outPath baseDir0 mdPath).2 = [] ∨
      (renderContentToPDF env src outPath baseDir0 mdPath).2 = [.pdf outPath] := by
  unfold renderContentToPDF
  cases env.mdToHTML src with
  | none => left; rfl
  | some htmlBody =>
    dsimp only
    split <;> (split <;> simp)

/-- `renderMarkdownToPDF` writes nothing or exactly its configured output PDF. -/
theorem renderMarkdownToPDF_writes (env : Env) (cfg : renderConfig) :
    (renderMarkdownToPDF env cfg).2 = [] ∨
      (renderMarkdownToPDF env cfg).2 = [.pdf cfg.outPath] := by
  unfold renderMarkdownToPDF
  cases env.readFile cfg.mdPath with
  | none => left; rfl
  | some src => exact renderContentToPDF_writes env src cfg.outPath cfg.baseDir cfg.mdPath

/-- The companion-zip step never writes a PDF artifact. -/
theorem zipSourceIfExists_no_pdf (env : Env) (folder outputDir baseName : Str) (p : Str) :
    Artifact.pdf p ∉ (zipSourceIfExists env folder outputDir baseName).2 := by
  unfold zipSourceIfExists
  dsimp only
  split
  · split <;> simp
  · simp

/-- One subfolders step extends the accumulated writes, and every PDF it
adds is named after the match's parent folder. -/
theorem subfolderStep_writes (env : Env) (out : Str) (acc : List Artifact) (m : Str) :
    ∃ w, subfolderStep env out acc m = acc ++ w ∧
      ∀ p, Artifact.pdf p ∈ w → pathBase m = markerName ∧
        p = joinPath out (pathBase (pathDir m) ++ ".pdf".toList) := by
  by_cases hmark : (pathBase m == markerName) = true
  · have hbase : pathBase m = markerName := by simpa using hmark
    unfold subfolderStep
    rw [if_pos hmark]
    dsimp only
    rcases hr : renderMarkdownToPDF env
        ⟨m, joinPath out (pathBase (pathDir m) ++ ".pdf".toList), pathDir m⟩ with ⟨res, w⟩
    have hw : w = [] ∨ w = [.pdf (joinPath out (pathBase (pathDir m) ++ ".pdf".toList))] := by
      have := renderMarkdownToPDF_writes env
        ⟨m, joinPath out (pathBase (pathDir m) ++ ".pdf".toList), pathDir m⟩
      rwa [hr] at this
    cases res with
    | error e =>
      refine ⟨w, rfl, fun p hp => ⟨hbase, ?_⟩⟩
      rcases hw with rfl | rfl
      · cases hp
      · have : Artifact.pdf p =
            Artifact.pdf (joinPath out (pathBase (pathDir m) ++ ".pdf".toList)) :=
          List.mem_singleton.mp hp
        injection this
    | ok u =>
      refine ⟨w ++ (zipSourceIfExists env (pathDir m) out (pathBase (pathDir m))).2,
        by simp, fun p hp => ⟨hbase, ?_⟩⟩
      rcases List.mem_append.mp hp with h2 | h3
      · rcases hw with rfl | rfl
        · cases h2
        · have : Artifact.pdf p =
              Artifact.pdf (joinPath out (pathBase (pathDir m) ++ ".pdf".toList)) :=
            List.mem_singleton.mp h2
          injection this
      · exact absurd h3 (zipSourceIfExists_no_pdf env (pathDir m) out (pathBase (pathDir m)) p)
  · exact ⟨[], by simp [subfolderStep, hmark], by simp⟩

/-- Every PDF written by the subfolders loop is named after the parent
folder of some marker-named match. -/
theorem subfolders_writes_mem (env : Env) (out : Str) :
    ∀ (l : List Str) (acc : List Artifact) (p : Str),
      Artifact.pdf p ∈ l.foldl (subfolderStep env out) acc →
      Artifact.pdf p ∈ acc ∨
        ∃ m ∈ l, pathBase m = markerName ∧
          p = joinPath out (pathBase (pathDir m) ++ ".pdf".toList) := by
  intro l
  induction l with
  | nil => intro acc p h; exact Or.inl h
  | cons m ms ih =>
    intro acc p h
    rw [List.foldl_cons] at h
    rcases ih (subfolderStep env out acc m) p h with hacc | ⟨m', hm', hb, hp⟩
    · obtain ⟨w, hw, hprop⟩ := subfolderStep_writes env out acc m
      rw [hw] at hacc
      rcases List.mem_append.mp hacc with h1 | h2
      · exact Or.inl h1
      · obtain ⟨hb, hp⟩ := hprop p h2
        exact Or.inr ⟨m, List.mem_cons_self m ms, hb, hp⟩
    · exact Or.inr ⟨m', List.mem_cons_of_mem _ hm', hb, hp⟩

/-- An img-tag match consumes at least one character. -/
theorem matchImgHead_pos {s : Str} {n : Nat} (h : matchImgHead s = some n) : 1 ≤ n := by
  unfold matchImgHead at h
  split at h
  · dsimp only at h
    split at h
    · cases h
    · split at h
      · cases h
        omega
      · cases h
  · cases h

/-- When every img-tag match of `s` carries an already-skippable src, the
replacement pass is the identity. -/
theorem replaceImgsAux_eq_self (ri : Str → Option Str) :
    ∀ (fuel : Nat) (s : Str), s.length ≤ fuel →
      allImgSrcsSkippableAux fuel s = true →
      replaceImgsAux (embedReplacement ri) fuel s = s := by
  intro fuel
  induction fuel with
  | zero =>
    intro s hf _
    have : s = [] := List.length_eq_zero.mp (Nat.le_zero.mp hf)
    subst this
    rfl
  | succ fuel ih =>
    intro s hf hskip
    cases s with
    | nil => rfl
    | cons c rest =>
      cases hm : matchImgHead (c :: rest) with
      | none =>
        rw [replaceImgsAux, hm]
        rw [allImgSrcsSkippableAux, hm] at hskip
        have hlen : rest.length ≤ fuel := by
          simpa using Nat.le_of_succ_le_succ (by simpa using hf)
        rw [ih rest hlen hskip]
      | some n =>
        rw [replaceImgsAux, hm]
        dsimp only
        rw [allImgSrcsSkippableAux, hm] at hskip
        rw [Bool.and_eq_true] at hskip
        obtain ⟨hsrc, hrec⟩ := hskip
        have hn : 1 ≤ n := matchImgHead_pos hm
        have hlen : ((c :: rest).drop n).length ≤ fuel := by
          rw [List.length_drop]
          have : (c :: rest).length ≤ fuel + 1 := hf
          omega
        have hrepl : embedReplacement ri ((c :: rest).take n) = (c :: rest).take n := by
          unfold embedReplacement
          rw [Bool.or_eq_true] at hsrc
          rcases hsrc with hempty | habs
          · rw [if_pos (List.isEmpty_iff.mp hempty)]
          · by_cases he : extractSrcAttribute ((c :: rest).take n) = []
            · rw [if_pos he]
            · rw [if_neg he, if_pos habs]
        rw [hrepl, ih _ hlen hrec, List.take_append_drop]

/-- A subfolders pass over matches without any marker file leaves the
accumulated writes unchanged. -/
theorem subfolders_no_marker_foldl (env : Env) (out : Str) :
    ∀ (l : List Str) (acc : List Artifact), (∀ m ∈ l, pathBase m ≠ markerName) →
      l.foldl (subfolderStep env out) acc = acc := by
  intro l
  induction l with
  | nil => intro acc _; rfl
  | cons m ms ih =>
    intro acc h
    have hm : ¬(pathBase m == markerName) = true := by
      simpa using h m (List.mem_cons_self m ms)
    simp only [List.foldl_cons, subfolderStep, hm]
    · exact ih acc fun x hx => h x (List.mem_cons_of_mem _ hx)

/-- `splitSlash` never returns the empty list. -/
theorem splitSlash_ne_nil : ∀ s : Str, splitSlash s ≠ [] := by
  intro s
  cases s with
  | nil => simp [splitSlash]
  | cons c rest =>
    unfold splitSlash
    split
    · simp
    · split
      · simp
      · simp

/-- A slash-free string splits into itself. -/
theorem splitSlash_no_slash : ∀ c : Str, '/' ∉ c → splitSlash c = [c] := by
  intro c
  induction c with
  | nil => intro _; rfl
  | cons x xs ih =>
    intro h
    have hx : ¬x = '/' := fun hx => h (hx ▸ List.mem_cons_self x xs)
    have hxs : '/' ∉ xs := fun hm => h (List.mem_cons_of_mem _ hm)
    unfold splitSlash
    rw [if_neg hx, ih hxs]

/-- Appending a separator and a slash-free component appends one chunk. -/
theorem splitSlash_append : ∀ (o c : Str), '/' ∉ c →
    splitSlash (o ++ '/' :: c) = splitSlash o ++ [c] := by
  intro o
  induction o with
  | nil => intro c hc; simp [splitSlash, splitSlash_no_slash c hc]
  | cons x xs ih =>
    intro c hc
    by_cases hx : x = '/'
    · subst hx
      simp only [List.cons_append]
      unfold splitSlash
      rw [if_pos rfl, if_pos rfl, ih c hc]
      rfl
    · simp only [List.cons_append]
      unfold splitSlash
      rw [if_neg hx, if_neg hx, ih c hc]
      rcases hs : splitSlash xs with _ | ⟨h1, t1⟩
      · exact absurd hs (splitSlash_ne_nil xs)
      · rfl

/-- A component other than `..` is simply retained by the clean step. -/
theorem cleanStep_plain (rooted : Bool) (acc : List Str) (c : Str) (h : c ≠ dotdot) :
    cleanStep rooted acc c = acc ++ [c] := by
  unfold cleanStep
  rw [if_neg h]

/-- Cleaning distributes over a trailing plain component. -/
theorem cleanComps_append (rooted : Bool) (l : List Str) (c : Str)
    (h1 : c ≠ []) (h2 : c ≠ ['.']) (h3 : c ≠ dotdot) :
    cleanComps rooted (l ++ [c]) = cleanComps rooted l ++ [c] := by
  unfold cleanComps
  have hpass : (!c.isEmpty && !(c == ['.'])) = true := by
    simp [List.isEmpty_iff, h1, h2]
  rw [List.filter_append]
  have : List.filter (fun c => !c.isEmpty && !(c == ['.'])) [c] = [c] := by
    simp [List.filter, hpass]
  rw [this, List.foldl_append]
  simp only [List.foldl_cons, List.foldl_nil]
  exact cleanStep_plain rooted _ c h3

/-- Joining with a trailing component. -/
theorem strJoin_append_single (sep : Str) :
    ∀ (P : List Str) (c : Str),
      strJoin sep (P ++ [c]) = (if P = [] then [] else strJoin sep P ++ sep) ++ c := by
  intro P
  induction P with
  | nil => intro c; simp [strJoin]
  | cons p ps ih =>
    intro c
    cases ps with
    | nil => simp [strJoin, List.append_assoc]
    | cons q qs =>
      have : strJoin sep ((p :: q :: qs) ++ [c]) =
          p ++ sep ++ strJoin sep ((q :: qs) ++ [c]) := rfl
      rw [this, ih c]
      rw [if_neg (by simp)]
      simp [strJoin, List.append_assoc]

/-- `rootedOf` of a cons is determined by its head. -/
theorem rootedOf_cons (x : Char) (xs : Str) :
    rootedOf (x :: xs) = if x = '/' then true else false := by
  by_cases hx : x = '/'
  · subst hx; rw [if_pos rfl]; rfl
  · rw [if_neg hx]
    unfold rootedOf
    split
    · rename_i heq
      cases heq
      exact absurd rfl hx
    · rfl

/-- `rootedOf` ignores everything after the first character. -/
theorem rootedOf_append (o z : Str) (h : o ≠ []) : rootedOf (o ++ z) = rootedOf o := by
  cases o with
  | nil => exact absurd rfl h
  | cons x xs => rw [List.cons_append, rootedOf_cons, rootedOf_cons]

/-- A plain component is already clean. -/
theorem pathClean_plain (c : Str) (h1 : c ≠ []) (h2 : '/' ∉ c) (h3 : c ≠ ['.'])
    (h4 : c ≠ dotdot) : pathClean c = c := by
  unfold pathClean
  rw [if_neg h1]
  have hroot : rootedOf c = false := by
    cases c with
    | nil => exact absurd rfl h1
    | cons x xs =>
      rw [rootedOf_cons, if_neg (fun hx => h2 (List.mem_cons.mpr (Or.inl hx.symm)))]
  rw [hroot]
  dsimp only
  rw [splitSlash_no_slash c h2]
  have : cleanComps false [c] = [c] := by
    have := cleanComps_append false [] c h1 h3 h4
    simpa [cleanComps] using this
  rw [this]
  have : strJoin ['/'] [c] = c := rfl
  rw [this]
  simp [h1]

/-- `pathClean` of a path extended by a separator and a plain component. -/
theorem pathClean_append (o c : Str) (ho : o ≠ []) (h1 : c ≠ []) (h2 : '/' ∉ c)
    (h3 : c ≠ ['.']) (h4 : c ≠ dotdot) :
    pathClean (o ++ '/' :: c) = joinStemOf o ++ c := by
  unfold pathClean
  have hne : o ++ '/' :: c ≠ [] := by simp
  rw [if_neg hne, rootedOf_append o ('/' :: c) ho]
  dsimp only
  rw [splitSlash_append o c h2, cleanComps_append _ _ c h1 h3 h4,
    strJoin_append_single ['/'] _ c]
  have hres :
      ((if rootedOf o then ['/'] else []) ++
        ((if cleanComps (rootedOf o) (splitSlash o) = [] then []
          else strJoin ['/'] (cleanComps (rootedOf o) (splitSlash o)) ++ ['/']) ++ c)) ≠ [] := by
    simp [h1]
  rw [← List.append_assoc] at hres ⊢
  rw [if_neg hres]
  unfold joinStemOf
  rw [if_neg ho]


/-- `joinPath` with a plain final component is that component after the
output-directory stem. -/
theorem joinPath_plain (o c : Str) (h1 : c ≠ []) (h2 : '/' ∉ c) (h3 : c ≠ ['.'])
    (h4 : c ≠ dotdot) : joinPath o c = joinStemOf o ++ c := by
  unfold joinPath
  by_cases ho : o = []
  · subst ho
    rw [if_pos rfl, if_neg h1, pathClean_plain c h1 h2 h3 h4]
    simp [joinStemOf]
  · rw [if_neg ho]
    exact pathClean_append o c ho h1 h2 h3 h4

/-- Distinct plain final components give distinct joined paths. -/
theorem joinPath_ne_of_comp_ne (o c₁ c₂ : Str)
    (h1 : c₁ ≠ []) (h2 : '/' ∉ c₁) (h3 : c₁ ≠ ['.']) (h4 : c₁ ≠ dotdot)
    (g1 : c₂ ≠ []) (g2 : '/' ∉ c₂) (g3 : c₂ ≠ ['.']) (g4 : c₂ ≠ dotdot)
    (hne : c₁ ≠ c₂) : joinPath o c₁ ≠ joinPath o c₂ := by
  rw [joinPath_plain o c₁ h1 h2 h3 h4, joinPath_plain o c₂ g1 g2 g3 g4]
  intro h
  exact hne (List.append_cancel_left h)

/-- A pdf artifact name built from a slash-free folder name is a plain
component. -/
theorem pdfName_plain (f : Str) (hf : '/' ∉ f) :
    (f ++ ".pdf".toList) ≠ [] ∧ '/' ∉ (f ++ ".pdf".toList) ∧
      (f ++ ".pdf".toList) ≠ ['.'] ∧ (f ++ ".pdf".toList) ≠ dotdot := by
  refine ⟨by simp, ?_, ?_, ?_⟩
  · intro hm
    rcases List.mem_append.mp hm with h | h
    · exact hf h
    · simp at h
  · intro h
    have := congrArg List.length h
    simp at this
  · intro h
    have := congrArg List.length h
    simp [dotdot] at this

/-- The lexicographic comparison is irreflexive. -/
theorem strLt_irrefl : ∀ s : Str, strLt s s = false := by
  intro s
  induction s with
  | nil => rfl
  | cons c cs ih =>
    unfold strLt
    rw [if_neg (lt_irrefl c), if_pos rfl]
    exact ih

/-- The lexicographic comparison is transitive. -/
theorem strLt_trans : ∀ a b c : Str, strLt a b = true → strLt b c = true →
    strLt a c = true := by
  intro a
  induction a with
  | nil =>
    intro b c hab hbc
    cases b with
    | nil => exact hbc
    | cons y ys =>
      cases c with
      | nil => cases hbc
      | cons z zs => rfl
  | cons x xs ih =>
    intro b c hab hbc
    cases b with
    | nil => cases hab
    | cons y ys =>
      cases c with
      | nil => cases hbc
      | cons z zs =>
        unfold strLt at hab hbc ⊢
        by_cases hxy : x < y
        · by_cases hyz : y < z
          · rw [if_pos (lt_trans hxy hyz)]
          · by_cases hyz' : y = z
            · subst hyz'
              rw [if_pos hxy]
            · rw [if_neg hyz, if_neg hyz'] at hbc
              cases hbc
        · rw [if_neg hxy] at hab
          by_cases hxy' : x = y
          · rw [if_pos hxy'] at hab
            subst hxy'
            by_cases hyz : x < z
            · rw [if_pos hyz]
            · rw [if_neg hyz] at hbc ⊢
              by_cases hyz' : x = z
              · rw [if_pos hyz'] at hbc ⊢
                exact ih ys zs hab hbc
              · rw [if_neg hyz'] at hbc
                cases hbc
          · rw [if_neg hxy'] at hab
            cases hab

/-- The lexicographic comparison is total on distinct strings. -/
theorem strLt_connex : ∀ a b : Str, a ≠ b → strLt a b = true ∨ strLt b a = true := by
  intro a
  induction a with
  | nil =>
    intro b hne
    cases b with
    | nil => exact absurd rfl hne
    | cons y ys => left; rfl
  | cons x xs ih =>
    intro b hne
    cases b with
    | nil => right; rfl
    | cons y ys =>
      rcases lt_trichotomy x y with h | h | h
      · left
        unfold strLt
        rw [if_pos h]
      · subst h
        have hne' : xs ≠ ys := fun hh => hne (by rw [hh])
        rcases ih ys hne' with h2 | h2
        · left
          unfold strLt
          rw [if_neg (lt_irrefl x), if_pos rfl]
          exact h2
        · right
          unfold strLt
          rw [if_neg (lt_irrefl x), if_pos rfl]
          exact h2
      · right
        unfold strLt
        rw [if_pos h]

/-- The lexicographic comparison is asymmetric. -/
theorem strLt_asymm : ∀ a b : Str, strLt a b = true → strLt b a = true → False := by
  intro a b h1 h2
  have h := strLt_trans a b a h1 h2
  rw [strLt_irrefl] at h
  cases h

instance : IsTrans (Str × List fileEntry) secLe :=
  ⟨by
    intro a b c hab hbc
    rcases hab with h1 | h1 <;> rcases hbc with h2 | h2
    · exact Or.inl (strLt_trans _ _ _ h1 h2)
    · exact Or.inl (by rw [← h2]; exact h1)
    · exact Or.inl (by rw [h1]; exact h2)
    · exact Or.inr (h1.trans h2)⟩

instance : IsTotal (Str × List fileEntry) secLe :=
  ⟨by
    intro a b
    by_cases h : a.1 = b.1
    · exact Or.inl (Or.inr h)
    · rcases strLt_connex a.1 b.1 h with h2 | h2
      · exact Or.inl (Or.inl h2)
      · exact Or.inr (Or.inl h2)⟩

instance : IsTrans fileEntry fileLe :=
  ⟨by
    intro a b c hab hbc
    rcases hab with h1 | h1 <;> rcases hbc with h2 | h2
    · exact Or.inl (strLt_trans _ _ _ h1 h2)
    · exact Or.inl (by rw [← h2]; exact h1)
    · exact Or.inl (by rw [h1]; exact h2)
    · exact Or.inr (h1.trans h2)⟩

instance : IsTotal fileEntry fileLe :=
  ⟨by
    intro a b
    by_cases h : a.Name = b.Name
    · exact Or.inl (Or.inr h)
    · rcases strLt_connex a.Name b.Name h with h2 | h2
      · exact Or.inl (Or.inl h2)
      · exact Or.inr (Or.inl h2)⟩

instance : IsAntisymm (Str × List fileEntry) secLt :=
  ⟨fun _ _ h1 h2 => (strLt_asymm _ _ h1 h2).elim⟩

/-- A section list that is weakly sorted by folder with pairwise-distinct
folder keys is strictly sorted. -/
theorem sorted_secLt_of_nodup {l : List (Str × List fileEntry)}
    (hs : List.Sorted secLe l) (hn : (l.map Prod.fst).Nodup) :
    List.Sorted secLt l := by
  have hpn : l.Pairwise fun a b => a.1 ≠ b.1 := List.pairwise_map.mp hn
  exact (hs.and hpn).imp fun {a b} h => by
    rcases h.1 with h1 | h1
    · exact h1
    · exact absurd h1 h.2

/-- `bucketAppend` preserves the folder-key list up to appending a fresh key. -/
theorem bucketAppend_keys_nodup {secs : List (Str × List fileEntry)} {folder : Str}
    {e : fileEntry} (h : (secs.map Prod.fst).Nodup) :
    ((bucketAppend secs folder e).map Prod.fst).Nodup := by
  unfold bucketAppend
  split
  · have hkeys :
        ((secs.map fun b => if (b.1 == folder) = true then (b.1, b.2 ++ [e]) else b).map
          Prod.fst) = secs.map Prod.fst := by
      rw [List.map_map]
      apply List.map_congr_left
      intro b _
      by_cases hb : (b.1 == folder) = true
      · simp [Function.comp, hb]
      · simp [Function.comp, hb]
    rw [hkeys]
    exact h
  · rename_i hany
    rw [List.map_append]
    rw [List.nodup_append]
    refine ⟨h, by simp, ?_⟩
    intro a ha hb
    simp only [List.map_cons, List.map_nil, List.mem_singleton] at hb
    subst hb
    obtain ⟨b, hbmem, hbeq⟩ := List.mem_map.mp ha
    apply hany
    apply List.any_eq_true.mpr
    exact ⟨b, hbmem, by simp [hbeq]⟩

/-- The pass-2 fold keeps folder keys distinct. -/
theorem pass2_foldl_keys_nodup (source : Str) (pz : List (Str × Str)) :
    ∀ (l : List Str) (acc : List (Str × List fileEntry)),
      (acc.map Prod.fst).Nodup →
      ((l.foldl (pass2Step source pz) acc).map Prod.fst).Nodup := by
  intro l
  induction l with
  | nil => intro acc h; exact h
  | cons p ps ih =>
    intro acc h
    rw [List.foldl_cons]
    apply ih
    unfold pass2Step
    dsimp only
    split
    · exact h
    · exact bucketAppend_keys_nodup h

/-- The catalog buckets have pairwise-distinct folder keys. -/
theorem buildSections_keys_nodup (tree : List Str) (source : Str) :
    ((buildSections tree source).map Prod.fst).Nodup :=
  pass2_foldl_keys_nodup source (pass1 tree source) tree [] (by simp)

/-- Sorting the per-bucket files does not change the folder keys. -/
theorem sortFilesSecs_keys (secs : List (Str × List fileEntry)) :
    (sortFilesSecs secs).map Prod.fst = secs.map Prod.fst := by
  unfold sortFilesSecs
  rw [List.map_map]
  rfl

/-- The ordered section list is invariant under permuting the bucket list
(the map-iteration order), because the folder keys are pairwise distinct
and the final sort is by folder. -/
theorem orderedSections_perm_eq {secs₁ secs₂ : List (Str × List fileEntry)}
    (hperm : secs₁.Perm secs₂) (hnd : (secs₂.map Prod.fst).Nodup) :
    orderedSections secs₁ = orderedSections secs₂ := by
  unfold orderedSections
  have hp1 := List.perm_insertionSort secLe (sortFilesSecs secs₁)
  have hp2 := List.perm_insertionSort secLe (sortFilesSecs secs₂)
  have hpm : (sortFilesSecs secs₁).Perm (sortFilesSecs secs₂) := hperm.map _
  have hptot := (hp1.trans hpm).trans hp2.symm
  have hk2 : ((List.insertionSort secLe (sortFilesSecs secs₂)).map Prod.fst).Nodup := by
    apply ((hp2.map Prod.fst).nodup_iff).mpr
    rw [sortFilesSecs_keys]
    exact hnd
  have hk1 : ((List.insertionSort secLe (sortFilesSecs secs₁)).map Prod.fst).Nodup := by
    apply ((hptot.map Prod.fst).nodup_iff).mpr
    exact hk2
  exact List.eq_of_perm_of_sorted hptot
    (sorted_secLt_of_nodup (List.sorted_insertionSort secLe _) hk1)
    (sorted_secLt_of_nodup (List.sorted_insertionSort secLe _) hk2)

/-- Entries reachable in a `bucketAppend` result were present before or are
the appended entry. -/
theorem bucketAppend_entries {secs : List (Str × List fileEntry)} {folder : Str}
    {e : fileEntry} {b : Str × List fileEntry} {x : fileEntry}
    (hb : b ∈ bucketAppend secs folder e) (hx : x ∈ b.2) :
    (∃ b' ∈ secs, x ∈ b'.2) ∨ x = e := by
  unfold bucketAppend at hb
  split at hb
  · obtain ⟨b', hb', rfl⟩ := List.mem_map.mp hb
    by_cases hf : (b'.1 == folder) = true
    · rw [if_pos hf] at hx
      simp only at hx
      rcases List.mem_append.mp hx with h | h
      · exact Or.inl ⟨b', hb', h⟩
      · exact Or.inr (List.mem_singleton.mp h)
    · rw [if_neg hf] at hx
      exact Or.inl ⟨b', hb', hx⟩
  · rcases List.mem_append.mp hb with h | h
    · exact Or.inl ⟨b, h, hx⟩
    · have hbe : b = (folder, [e]) := by simpa using h
      subst hbe
      simp only at hx
      exact Or.inr (List.mem_singleton.mp hx)

/-- No entry produced by the pass-2 fold matches the companion naming
convention. -/
theorem pass2_foldl_no_srczip (source : Str) (pz : List (Str × Str)) :
    ∀ (l : List Str) (acc : List (Str × List fileEntry)),
      (∀ b ∈ acc, ∀ e ∈ b.2, isSrcZipName e.Name = false) →
      ∀ b ∈ l.foldl (pass2Step source pz) acc, ∀ e ∈ b.2,
        isSrcZipName e.Name = false := by
  intro l
  induction l with
  | nil => intro acc h; exact h
  | cons p ps ih =>
    intro acc h
    rw [List.foldl_cons]
    apply ih
    intro b hb e he
    unfold pass2Step at hb
    dsimp only at hb
    by_cases hskip : isSrcZipName (pathBase p) = true
    · rw [if_pos hskip] at hb
      exact h b hb e he
    · rw [if_neg hskip] at hb
      rcases bucketAppend_entries hb he with ⟨b', hb', he'⟩ | rfl
      · exact h b' hb' e he'
      · simpa using hskip

/-- Filtering for marker files is idempotent. -/
theorem filterREADMEs_idem (ms : List Str) :
    filterREADMEs (filterREADMEs ms) = filterREADMEs ms := by
  unfold filterREADMEs
  apply List.filter_eq_self.mpr
  intro a ha
  exact (List.mem_filter.mp ha).2

/-! ## Claim theorems -/

/-- C7: asset embedding is idempotent.  For every content in which every
image src is already an inline-data reference (`data:`) or a remote
absolute URL (`http://`, `https://`), `embedImagesAsBase64` returns its
input byte-identically; consequently re-embedding an embedded result whose
references are all inline-data or remote (that is, one on which embedding
succeeded on all local references) is the identity. -/
theorem c7_embed_idempotent :
    (∀ (readImage : Str → Str → Option Str) (content baseDir : Str),
        allImgSrcsSkippable content = true →
        embedImagesAsBase64 readImage content baseDir = content) ∧
    (∀ (readImage : Str → Str → Option Str) (content baseDir : Str),
        allImgSrcsSkippable (embedImagesAsBase64 readImage content baseDir) = true →
        embedImagesAsBase64 readImage (embedImagesAsBase64 readImage content baseDir) baseDir =
          embedImagesAsBase64 readImage content baseDir) := by
  constructor
  · intro ri content baseDir h
    exact replaceImgsAux_eq_self (ri baseDir) content.length content le_rfl h
  · intro ri content baseDir h
    exact replaceImgsAux_eq_self (ri baseDir) _ _ le_rfl h

/-- Witness for C7 at a concrete already-embedded content. -/
theorem c7_witness :
    allImgSrcsSkippable "<img src='data:image/png;base64,QUJD'>".toList = true ∧
    embedImagesAsBase64 (fun _ _ => none)
        "<img src='data:image/png;base64,QUJD'>".toList "dir".toList =
      "<img src='data:image/png;base64,QUJD'>".toList :=
  ⟨by decide, c7_embed_idempotent.1 (fun _ _ => none) _ _ (by decide)⟩

/-- C9 (implicit): a subfolders job whose glob matches at least one file
but no `README.md` marker returns success and writes nothing — a silent
no-op with no reported failure. -/
theorem c9_subfolders_silent_noop :
    ∀ (env : Env) (j : Job) (ms : List Str),
      j.type = "subfolders".toList → env.glob j.source = some ms → ms ≠ [] →
      (∀ m ∈ ms, pathBase m ≠ markerName) →
      executeJob env j = (.ok (), []) := by
  intro env j ms htype hglob hne hmark
  unfold executeJob
  rw [if_pos htype]
  unfold renderSubfolders findMatches
  rw [hglob]
  dsimp only
  rw [if_neg hne]
  dsimp only
  rw [subfolders_no_marker_foldl env j.output ms [] hmark]

/-- Witness for C9: one matched non-marker file. -/
theorem c9_witness : executeJob envNoMarker jobSubfolders = (.ok (), []) :=
  c9_subfolders_silent_noop envNoMarker jobSubfolders ["x/notes.md".toList]
    (by decide) rfl (by decide) (by decide)

/-- C10 (implicit): in the merge-with-headers strategy the level-1 folder
heading of a marker file is emitted before the read is attempted, so the
combined document holds one heading per marker file and content only for
the readable ones: an unreadable file's heading is followed by no content. -/
theorem c10_header_emitted_on_read_failure :
    ∀ (env : Env) (readmes : List Str),
      combineREADMEsWithHeaders env readmes =
        strJoin combineSeparator
          (readmes.flatMap fun r => headerFor r :: (env.readFile r).toList) ∧
      (∀ r ∈ readmes, env.readFile r = none →
        headerFor r ∈ combineParts env readmes) := by
  intro env readmes
  constructor
  · unfold combineREADMEsWithHeaders
    rw [combineParts_eq]
  · intro r hr _
    rw [combineParts_eq]
    exact List.mem_flatMap.mpr ⟨r, hr, List.mem_cons_self _ _⟩

/-- Witness for C10 at a concrete unreadable marker file. -/
theorem c10_witness :
    combineREADMEsWithHeaders envTwoFiles ["x/docs/README.md".toList] =
      strJoin combineSeparator
        (["x/docs/README.md".toList].flatMap fun r =>
          headerFor r :: (envTwoFiles.readFile r).toList) ∧
    headerFor "x/docs/README.md".toList ∈
      combineParts envTwoFiles ["x/docs/README.md".toList] :=
  ⟨(c10_header_emitted_on_read_failure envTwoFiles ["x/docs/README.md".toList]).1,
   (c10_header_emitted_on_read_failure envTwoFiles ["x/docs/README.md".toList]).2
     "x/docs/README.md".toList (by decide) (by decide)⟩

/-- C4: a glob pattern expanding to the empty set fails the owning job with
the no-matches error before anything is written, and the job loop runs
every configured job independently of any failure. -/
theorem c4_empty_glob_fails_job :
    ∀ (env : Env) (j : Job) (jobs : List Job),
      (j.type = "subfolders".toList ∨ j.type = "single".toList ∨
        j.type = "combine".toList) →
      env.glob j.source = some [] →
      executeJob env j = (.error (.noMatch j.source), []) ∧
      executeJobs env jobs =
        (jobs.map fun jb => (executeJob env jb).1,
         (jobs.map fun jb => (executeJob env jb).2).flatten) := by
  intro env j jobs htype hglob
  refine ⟨?_, executeJobs_eq env jobs⟩
  have hfm : findMatches env j.source = .error (.noMatch j.source) := by
    unfold findMatches
    rw [hglob]
    dsimp only
    rw [if_pos rfl]
  rcases htype with h | h | h
  · unfold executeJob
    rw [h]
    rw [if_pos rfl]
    unfold renderSubfolders
    rw [hfm]
  · unfold executeJob
    rw [h]
    rw [if_neg (by decide), if_pos rfl]
    unfold renderSingle
    rw [hfm]
  · unfold executeJob
    rw [h]
    rw [if_neg (by decide), if_neg (by decide), if_pos rfl]
    unfold renderCombine
    rw [hfm]

/-- Witness for C4: an empty glob result on a single-strategy job. -/
theorem c4_witness :
    executeJob envNoMatch jobSingle = (.error (.noMatch jobSingle.source), []) ∧
    executeJobs envNoMatch [jobSingle] =
      ([(executeJob envNoMatch jobSingle).1], (executeJob envNoMatch jobSingle).2) := by
  have h := c4_empty_glob_fails_job envNoMatch jobSingle [jobSingle]
    (Or.inr (Or.inl rfl)) rfl
  refine ⟨h.1, ?_⟩
  rw [h.2]
  simp

/-- C2, corrected: every file matching the companion convention
(`*_src.zip`, name longer than the suffix) is excluded from the catalog
outright, whether or not the corresponding primary artifact exists; when
both `demo.pdf` and `demo_src.zip` are present in the same directory the
catalog holds exactly one entry, for `demo.pdf`, carrying the companion
reference, and no standalone entry for the archive. -/
theorem c2_srczip_excluded_companion_attached :
    (∀ (tree : List Str) (source : Str), ∀ b ∈ buildSections tree source,
        ∀ e ∈ b.2, isSrcZipName e.Name = false) ∧
    buildSections treePdfAndZip "output".toList =
      [("output/docs".toList,
        [⟨"demo.pdf".toList, "docs/demo.pdf".toList, "docs/demo_src.zip".toList⟩])] ∧
    orderedSections (buildSections treePdfAndZip "output".toList) =
      [("output/docs".toList,
        [⟨"demo.pdf".toList, "docs/demo.pdf".toList, "docs/demo_src.zip".toList⟩])] :=
  ⟨fun tree source =>
    pass2_foldl_no_srczip source (pass1 tree source) tree [] (by simp),
   by decide, by decide⟩

/-- Counterexample to C2 as stated: a `demo_src.zip` with no matching
`demo.pdf` satisfies the companion naming convention and the catalog for a
tree holding only it is empty — the archive is not listed as an ordinary
entry. -/
theorem c2_counterexample :
    isSrcZipName (pathBase "output/docs/demo_src.zip".toList) = true ∧
    buildSections treeZipOnly "output".toList = [] :=
  ⟨by decide, by decide⟩

/-- Witness for C2's general exclusion conjunct at a concrete catalog. -/
theorem c2_witness :
    isSrcZipName (fileEntry.mk "x.zip".toList "a/x.zip".toList []).Name = false :=
  c2_srczip_excluded_companion_attached.1 ["output/a/x.zip".toList] "output".toList
    ("output/a".toList, [⟨"x.zip".toList, "a/x.zip".toList, []⟩]) (by decide)
    ⟨"x.zip".toList, "a/x.zip".toList, []⟩ (by decide)

/-- C8: the catalog data is deterministic.  The ordered section list does
not depend on the (randomized) map-iteration order of the folder buckets:
ordering any permutation of the built buckets gives the same list, hence
any encoder (the hyperlinked and the structured-table catalog alike)
produces byte-identical output across runs on an unchanged tree with the
same source-control discovery outcome; sections come out sorted by folder
and each section's files sorted by name. -/
theorem c8_catalog_deterministic :
    ∀ (tree : List Str) (source : Str) (secs : List (Str × List fileEntry)),
      secs.Perm (buildSections tree source) →
      orderedSections secs = orderedSections (buildSections tree source) ∧
      (∀ enc : List (Str × List fileEntry) → Str,
        enc (orderedSections secs) =
          enc (orderedSections (buildSections tree source))) ∧
      List.Sorted secLe (orderedSections secs) ∧
      (∀ b ∈ orderedSections secs, List.Sorted fileLe b.2) := by
  intro tree source secs hperm
  have hmain := orderedSections_perm_eq hperm (buildSections_keys_nodup tree source)
  refine ⟨hmain, fun enc => by rw [hmain], List.sorted_insertionSort secLe _, ?_⟩
  intro b hb
  have hb' : b ∈ sortFilesSecs secs := List.mem_insertionSort secLe |>.mp hb
  obtain ⟨b0, _, rfl⟩ := List.mem_map.mp hb'
  exact List.sorted_insertionSort fileLe _

/-- Witness for C8: the two bucket orders of a concrete two-folder tree
order to the same catalog. -/
theorem c8_witness :
    orderedSections
        [("output/b".toList, [⟨"y.pdf".toList, "b/y.pdf".toList, []⟩]),
         ("output/a".toList, [⟨"x.pdf".toList, "a/x.pdf".toList, []⟩])] =
      orderedSections (buildSections treeTwoFolders "output".toList) :=
  (c8_catalog_deterministic treeTwoFolders "output".toList
    [("output/b".toList, [⟨"y.pdf".toList, "b/y.pdf".toList, []⟩]),
     ("output/a".toList, [⟨"x.pdf".toList, "a/x.pdf".toList, []⟩])]
    (by decide)).1

/-- C5: the merge-with-headers strategy considers only matched files whose
base name is the marker `README.md` — non-marker matches are silently
excluded without error (the job result is unchanged when the glob yields
only the filtered set) — and an empty filtered set with a non-empty match
set is the distinct hard failure `NoReadmeError`, different from the
resolver's empty-match failure. -/
theorem c5_combine_filters_markers :
    ∀ (env : Env) (j : Job) (ms : List Str),
      j.type = "combine".toList → env.glob j.source = some ms → ms ≠ [] →
      (∀ f ∈ filterREADMEs ms, pathBase f = markerName) ∧
      (filterREADMEs ms = [] →
        executeJob env j = (.error (.noReadme j.source), []) ∧
        ∀ s p : Str, JobError.noReadme s ≠ JobError.noMatch p) ∧
      (filterREADMEs ms ≠ [] →
        executeJob env j =
          executeJob
            { env with
              glob := fun q =>
                if q = j.source then some (filterREADMEs ms) else env.glob q }
            j) := by
  intro env j ms htype hglob hne
  refine ⟨?_, ?_, ?_⟩
  · intro f hf
    have := List.mem_filter.mp hf
    simpa using this.2
  · intro hfil
    refine ⟨?_, fun s p h => by cases h⟩
    unfold executeJob
    rw [htype]
    rw [if_neg (by decide), if_neg (by decide), if_pos rfl]
    unfold renderCombine findMatches
    rw [hglob]
    dsimp only
    rw [if_neg hne]
    dsimp only
    rw [if_pos hfil]
  · intro hfil
    have hL : executeJob env j = renderCombine env j := by
      unfold executeJob
      rw [htype]
      rw [if_neg (by decide), if_neg (by decide), if_pos rfl]
    have hR :
        executeJob
            { env with
              glob := fun q =>
                if q = j.source then some (filterREADMEs ms) else env.glob q } j =
          renderCombine
            { env with
              glob := fun q =>
                if q = j.source then some (filterREADMEs ms) else env.glob q } j := by
      unfold executeJob
      rw [htype]
      rw [if_neg (by decide), if_neg (by decide), if_pos rfl]
    rw [hL, hR]
    unfold renderCombine findMatches
    rw [hglob]
    have hg' :
        ({ env with
            glob := fun q =>
              if q = j.source then some (filterREADMEs ms) else env.glob q } : Env).glob
            j.source = some (filterREADMEs ms) := by
      dsimp only
      rw [if_pos rfl]
    rw [hg']
    dsimp only
    rw [if_neg hne, if_neg hfil]
    dsimp only
    rw [if_neg hfil, filterREADMEs_idem, if_neg hfil]
    rfl

/-- Witness for C5 at a concrete input: a combine job whose single match is
not a marker file. -/
theorem c5_witness :
    executeJob envNoMarker jobCombine = (.error (.noReadme jobCombine.source), []) :=
  ((c5_combine_filters_markers envNoMarker jobCombine ["x/notes.md".toList]
      (by decide) rfl (by decide)).2.1 (by decide)).1

/-- C6: markdown-sourced content is always wrapped in the shared shell;
non-markdown content is used directly exactly when it already contains a
document-level marker (doctype, html root, head section or style block,
case-insensitively) and is wrapped otherwise; a `<style>` block with no
other marker counts as complete. -/
theorem c6_wrap_decision :
    (∀ (env : HydEnv) (s name : Str) (dt : Option Str) (d conv content : Str),
        env.toHTML s = some conv → env.embedImages conv d = some content →
        renderDocumentHTML env true s name dt d =
          some (env.wrapTemplate content (dt.getD name))) ∧
    (∀ (env : HydEnv) (s name : Str) (dt : Option Str) (d content : Str),
        env.embedImages s d = some content →
        renderDocumentHTML env false s name dt d =
          some (if isCompleteHTMLDocument content then content
                else env.wrapTemplate content (dt.getD name))) ∧
    isCompleteHTMLDocument styleOnlyDoc = true ∧
    containsStr (toLowerStr styleOnlyDoc) "<!doctype".toList = false ∧
    containsStr (toLowerStr styleOnlyDoc) "<html".toList = false ∧
    containsStr (toLowerStr styleOnlyDoc) "<head".toList = false ∧
    containsStr (toLowerStr styleOnlyDoc) "<style".toList = true := by
  refine ⟨?_, ?_, by decide, by decide, by decide, by decide, by decide⟩
  · intro env s name dt d conv content hconv hembed
    simp [renderDocumentHTML, hconv, hembed]
  · intro env s name dt d content hembed
    unfold renderDocumentHTML
    rw [if_neg (show ¬(false = true) by decide)]
    dsimp only
    rw [hembed]
    dsimp only
    simp only [Bool.not_false, Bool.true_and]
    by_cases hc : isCompleteHTMLDocument content = true
    · rw [if_pos hc, if_pos hc]
    · rw [if_neg hc, if_neg hc]

/-- Witness for C6 at the concrete style-only document. -/
theorem c6_witness :
    renderDocumentHTML hydEnvId false styleOnlyDoc "doc".toList none "imgs".toList =
      some styleOnlyDoc ∧
    renderDocumentHTML hydEnvId true styleOnlyDoc "doc".toList none "imgs".toList =
      some (hydEnvId.wrapTemplate styleOnlyDoc "doc".toList) := by
  constructor
  · have h := c6_wrap_decision.2.1 hydEnvId styleOnlyDoc "doc".toList none "imgs".toList
      styleOnlyDoc rfl
    rw [h, if_pos (by decide)]
  · exact c6_wrap_decision.1 hydEnvId styleOnlyDoc "doc".toList none "imgs".toList
      styleOnlyDoc styleOnlyDoc rfl rfl

/-- C3, corrected: every artifact written by an independent (subfolders)
job is named after the parent folder's base name plus `.pdf`, not the
marker filename; two folders yield distinct artifact names provided their
base names differ (which fails for folders in different parents that share
a base name: those collide). -/
theorem c3_artifact_named_by_folder :
    ∀ (env : Env) (j : Job) (ms : List Str),
      j.type = "subfolders".toList → env.glob j.source = some ms →
      (∀ p, Artifact.pdf p ∈ (executeJob env j).2 →
        ∃ m ∈ ms, pathBase m = markerName ∧
          p = joinPath j.output (pathBase (pathDir m) ++ ".pdf".toList)) ∧
      (∀ m₁ m₂, m₁ ∈ ms → m₂ ∈ ms →
        '/' ∉ pathBase (pathDir m₁) → '/' ∉ pathBase (pathDir m₂) →
        pathBase (pathDir m₁) ≠ pathBase (pathDir m₂) →
        joinPath j.output (pathBase (pathDir m₁) ++ ".pdf".toList) ≠
          joinPath j.output (pathBase (pathDir m₂) ++ ".pdf".toList)) := by
  intro env j ms htype hglob
  constructor
  · intro p hp
    have hex : executeJob env j = renderSubfolders env j := by
      unfold executeJob
      rw [if_pos htype]
    rw [hex] at hp
    unfold renderSubfolders findMatches at hp
    rw [hglob] at hp
    dsimp only at hp
    by_cases hms : ms = []
    · rw [if_pos hms] at hp
      cases hp
    · rw [if_neg hms] at hp
      dsimp only at hp
      rcases subfolders_writes_mem env j.output ms [] p hp with h | h
      · cases h
      · exact h
  · intro m₁ m₂ _ _ hs₁ hs₂ hne
    obtain ⟨a1, a2, a3, a4⟩ := pdfName_plain (pathBase (pathDir m₁)) hs₁
    obtain ⟨b1, b2, b3, b4⟩ := pdfName_plain (pathBase (pathDir m₂)) hs₂
    refine joinPath_ne_of_comp_ne j.output _ _ a1 a2 a3 a4 b1 b2 b3 b4 ?_
    intro h
    exact hne (List.append_cancel_right h)

/-- Counterexample to C3's no-collision half as stated: two distinct
folders `a/docs` and `b/docs` both produce the artifact `out/docs.pdf`. -/
theorem c3_counterexample :
    (executeJob envTwoDocs jobSubfolders).2 =
      [.pdf "out/docs.pdf".toList, .pdf "out/docs.pdf".toList] ∧
    pathDir "a/docs/README.md".toList ≠ pathDir "b/docs/README.md".toList :=
  ⟨by rfl, by decide⟩

/-- Witness for C3's amended statement at concrete inputs. -/
theorem c3_witness :
    (∃ m ∈ ["p/alpha/README.md".toList, "p/beta/README.md".toList],
        pathBase m = markerName ∧
          "out/alpha.pdf".toList =
            joinPath jobSubfolders.output (pathBase (pathDir m) ++ ".pdf".toList)) ∧
    joinPath jobSubfolders.output
        (pathBase (pathDir "p/alpha/README.md".toList) ++ ".pdf".toList) ≠
      joinPath jobSubfolders.output
        (pathBase (pathDir "p/beta/README.md".toList) ++ ".pdf".toList) :=
  ⟨(c3_artifact_named_by_folder envAlphaBeta jobSubfolders
      ["p/alpha/README.md".toList, "p/beta/README.md".toList] (by decide) rfl).1
      "out/alpha.pdf".toList (by decide),
   (c3_artifact_named_by_folder envAlphaBeta jobSubfolders
      ["p/alpha/README.md".toList, "p/beta/README.md".toList] (by decide) rfl).2
      "p/alpha/README.md".toList "p/beta/README.md".toList
      (by decide) (by decide) (by decide) (by decide) (by decide)⟩

/-- C1, corrected: the claimed skip-and-continue behaviour holds only for
the merge-with-headers strategy.  In the merge (single) strategy
`combineMarkdownFiles` returns a read error as soon as any listed file is
unreadable, so no combined document of the remaining files is produced; a
combine job, by contrast, succeeds and publishes its output whatever the
marker reads do, provided conversion and rendering succeed. -/
theorem c1_single_aborts_combine_skips :
    (∀ (env : Env) (files : List Str) (separator : Str) (f : Str),
        f ∈ files → env.readFile f = none →
        ∃ g, combineMarkdownFiles env files separator = .error (.readFile g) ∧
          env.readFile g = none) ∧
    (∀ (env : Env) (j : Job) (ms : List Str),
        j.type = "combine".toList → env.glob j.source = some ms →
        filterREADMEs ms ≠ [] →
        (∀ s, (env.mdToHTML s).isSome = true) → (∀ h, env.chromeOK h = true) →
        executeJob env j = (.ok (), [.pdf j.output])) := by
  constructor
  · intro env files separator f hf hnone
    obtain ⟨g, hg, hgn⟩ := readAllFiles_error_of_fail env files f hf hnone
    exact ⟨g, by unfold combineMarkdownFiles; rw [hg], hgn⟩
  · intro env j ms htype hglob hfilter hmd hchrome
    have hms : ms ≠ [] := by
      intro h
      subst h
      exact hfilter rfl
    unfold executeJob
    rw [htype]
    rw [if_neg (by decide), if_neg (by decide), if_pos rfl]
    unfold renderCombine findMatches
    rw [hglob]
    dsimp only
    rw [if_neg hms]
    dsimp only
    rw [if_neg hfilter]
    rcases hr : filterREADMEs ms with _ | ⟨r, rs⟩
    · exact absurd hr hfilter
    · dsimp only
      unfold renderCombinedMarkdown renderContentToPDF
      obtain ⟨html, hhtml⟩ := Option.isSome_iff_exists.mp
        (hmd (combineREADMEsWithHeaders env (r :: rs)))
      rw [hhtml]
      dsimp only
      rw [hchrome _]
      rfl

/-- Counterexample to C1 as stated: with two matched files of which only
the first is readable, `combineMarkdownFiles` returns an error instead of
the combined document of the readable files, and the owning single job
fails. -/
theorem c1_counterexample :
    envTwoFiles.readFile "a.md".toList = some "A".toList ∧
    envTwoFiles.readFile "b.md".toList = none ∧
    combineMarkdownFiles envTwoFiles ["a.md".toList, "b.md".toList] "\n\n".toList =
      .error (.readFile "b.md".toList) ∧
    executeJob envTwoFiles jobSingle = (.error (.readFile "b.md".toList), []) :=
  ⟨by decide, by decide, by rfl, by rfl⟩

/-- Witness for C1's amended statement at concrete inputs. -/
theorem c1_witness :
    (∃ g, combineMarkdownFiles envTwoFiles ["a.md".toList, "b.md".toList]
        "\n\n".toList = .error (.readFile g) ∧ envTwoFiles.readFile g = none) ∧
    executeJob envTwoDocs jobCombine = (.ok (), [.pdf jobCombine.output]) :=
  ⟨c1_single_aborts_combine_skips.1 envTwoFiles _ _ "b.md".toList (by decide) (by decide),
   c1_single_aborts_combine_skips.2 envTwoDocs jobCombine
     ["a/docs/README.md".toList, "b/docs/README.md".toList]
     (by decide) rfl (by decide) (fun _ => rfl) (fun _ => rfl)⟩

end MdAction
